import Mathlib

/-!
Shallow embedding of the competitor-campaign-tracker repository
(`src/scraper.py`, `src/app.py`, `src/scheduler.py`, `src/models.py`).

Conventions of the embedding:
* timestamps are seconds since the Unix epoch, modelled as `Nat`;
* Python `None` and the empty string are both modelled as `""`; the code only
  ever tests these fields for truthiness (`x or y`, `if not x`), under which
  `None` and `""` behave identically;
* the SQLAlchemy store is a `List CampaignRecord`.
  `query.filter_by(name, competitor).first()` is `List.find?`; mutating the
  ORM object returned by `.first()` is replacement of the first matching
  list entry; `db.session.add` of a fresh row appends it;
* the network / HTML collaborators (`requests`, BeautifulSoup) are abstracted:
  a parsed element is a `select_one` lookup table, and a per-URL page-scan
  result is a list of already-extracted candidates.
-/

namespace CampaignTracker

/-! ### Text normalizer (`MarriottChinaScraper._clean_text`, scraper.py 79-96) -/

/-- ASCII whitespace: the fragment of Python's regex `\s` exercised by the
repository's inputs. -/
def isSpaceChar (c : Char) : Bool :=
  c == ' ' || c == '\t' || c == '\n' || c == '\r' || c == '\x0b' || c == '\x0c'

/-- Split a character list into maximal whitespace-free words (Python
`text.split()`), accumulating the current word in reverse. -/
def wordsAux : List Char → List Char → List (List Char)
  | [], acc => if acc = [] then [] else [acc.reverse]
  | ch :: rest, acc =>
    if isSpaceChar ch then
      if acc = [] then wordsAux rest [] else acc.reverse :: wordsAux rest []
    else wordsAux rest (ch :: acc)

/-- Rejoin words with single spaces. -/
def joinWords : List (List Char) → List Char
  | [] => []
  | [w] => w
  | w :: ws => w ++ ' ' :: joinWords ws

/-- `_clean_text`: collapse every whitespace run to one space and trim the
ends (`re.sub(r'\s+', ' ', text).strip()`); empty/absent input yields `""`.
Non-whitespace characters, including multi-byte Chinese characters, pass
through unchanged. -/
def clean_text (s : String) : String :=
  if s = "" then "" else ⟨joinWords (wordsAux s.data [])⟩

/-! ### Category classifier (`MarriottChinaScraper._detect_category`, scraper.py 57-77) -/

/-- Does the character list `pat` occur as a leading segment of `l`? -/
def startsWithChars : List Char → List Char → Bool
  | [], _ => true
  | _ :: _, [] => false
  | p :: ps, c :: cs => p == c && startsWithChars ps cs

/-- Does the character list `pat` occur contiguously anywhere in `l`?
(Python's `pat in hay` on strings.) -/
def containsChars (pat : List Char) : List Char → Bool
  | [] => startsWithChars pat []
  | c :: cs => startsWithChars pat (c :: cs) || containsChars pat cs

/-- Python `pat in hay` substring test. -/
def strContains (hay pat : String) : Bool := containsChars pat.data hay.data

/-- Python `str.lower()` for the character range the repository exercises:
ASCII letters are lowercased and every other character — in particular the
multi-byte Chinese keyword characters — is unchanged, exactly as in Python. -/
def toLowerStr (s : String) : String := ⟨s.data.map Char.toLower⟩

/-- `MarriottChinaScraper.CATEGORY_KEYWORDS` in its declared (insertion)
order; Python dicts iterate in insertion order. -/
def CATEGORY_KEYWORDS : List (String × List String) :=
  [ ("family", ["亲子", "家庭", "儿童", "家族", "亲情", "孩子"]),
    ("dining", ["餐饮", "美食", "餐厅", "饮食", "用餐", "早餐", "晚餐", "自助餐"]),
    ("seasonal", ["季节", "春", "夏", "秋", "冬", "节日", "新年", "圣诞", "春节", "中秋"]),
    ("rewards", ["积分", "会员", "旅享家", "奖励", "里程", "返现", "Bonvoy"]),
    ("travel", ["旅行", "度假", "出行", "旅游", "游玩", "探索"]),
    ("business", ["商务", "会议", "办公", "差旅"]),
    ("spa", ["水疗", "SPA", "养生", "按摩", "理疗"]),
    ("wedding", ["婚礼", "婚宴", "婚庆", "蜜月"]),
    ("promotion", ["优惠", "折扣", "特价", "促销", "立减", "返利"]) ]

/-- Inner test of `_detect_category`: some keyword of the entry, lowercased,
occurs in the (already lowercased) text. -/
def entryMatches (e : String × List String) (tl : String) : Bool :=
  e.2.any (fun kw => strContains tl (toLowerStr kw))

/-- The nested `for category / for keyword` loop of `_detect_category`:
first entry with a matching keyword wins; otherwise `general`. -/
def detect_category_aux : List (String × List String) → String → String
  | [], _ => "general"
  | e :: rest, tl => if entryMatches e tl then e.1 else detect_category_aux rest tl

/-- `_detect_category`: empty text is `general`; otherwise lowercase the text
and return the first category (in declared table order) one of whose
keywords is a case-insensitive substring; default `general`. -/
def detect_category (text : String) : String :=
  if text = "" then "general" else detect_category_aux CATEGORY_KEYWORDS (toLowerStr text)

/-! ### Data model (`models.py`, and the candidate dicts built by `scraper.py`) -/

/-- The campaign dict produced by extraction (`scraper.py`): keys
`campaign_name`, `campaign_info`, `source_url`, `category`, `scraped_date`,
`competitor_name`. -/
structure Candidate where
  campaign_name : String
  campaign_info : String
  source_url : String
  category : String
  scraped_date : Nat
  competitor_name : String
deriving DecidableEq

/-- A row of the `competitor_campaigns` table (`models.py`), restricted to the
columns the reconciler reads or writes. -/
structure CampaignRecord where
  campaign_name : String
  campaign_info : String
  source_url : String
  category : String
  scraped_date : Nat
  last_seen_date : Nat
  is_active : Bool
  competitor_name : String
deriving DecidableEq

/-- `CompetitorCampaign.query.filter_by(campaign_name=.., competitor_name=..).first()`. -/
def findByIdentity (name comp : String) (s : List CampaignRecord) : Option CampaignRecord :=
  s.find? (fun r => decide (r.campaign_name = name ∧ r.competitor_name = comp))

/-- Mutating the ORM object returned by `.first()`: replace the first list
entry satisfying `p` by its image under `f`. -/
def updateFirst (p : CampaignRecord → Bool) (f : CampaignRecord → CampaignRecord) :
    List CampaignRecord → List CampaignRecord
  | [] => []
  | r :: rest => if p r then f r :: rest else r :: updateFirst p f rest

/-- Python `a or b` for the string/None fields involved (`None` and `""` are
both falsy and both modelled as `""`). -/
def pyOr (a b : String) : String := if a = "" then b else a

/-- The identity predicate used by the `filter_by` lookup of `save_campaign`. -/
def idPred (c : Candidate) (r : CampaignRecord) : Bool :=
  decide (r.campaign_name = c.campaign_name ∧ r.competitor_name = c.competitor_name)

/-- The field updates applied to an existing row in `save_campaign`
(app.py 357-362 / scheduler.py 123-129). -/
def applyUpdate (c : Candidate) (now : Nat) (r : CampaignRecord) : CampaignRecord :=
  { r with
    campaign_info := pyOr c.campaign_info r.campaign_info
    source_url := pyOr c.source_url r.source_url
    category := pyOr c.category r.category
    last_seen_date := now
    is_active := true }

/-- The fresh row built in the create branch of `save_campaign`
(app.py 367-381 / scheduler.py 131-144): `scraped_date` is taken from the
candidate, `last_seen_date` is `datetime.utcnow()` at save time. -/
def newRecord (c : Candidate) (now : Nat) : CampaignRecord :=
  { campaign_name := c.campaign_name
    campaign_info := c.campaign_info
    source_url := c.source_url
    category := c.category
    scraped_date := c.scraped_date
    last_seen_date := now
    is_active := true
    competitor_name := c.competitor_name }

/-- `save_campaign` (app.py 332-381; `CampaignScheduler._save_campaign` is the
same code): validate the name, look up the identity, update or create, and
return the classification together with the committed store. `now` is
`datetime.utcnow()` at save time. -/
def save_campaign (c : Candidate) (s : List CampaignRecord) (now : Nat) :
    String × List CampaignRecord :=
  if c.campaign_name = "" then ("skipped", s)
  else
    match findByIdentity c.campaign_name c.competitor_name s with
    | some _ => ("updated", updateFirst (idPred c) (applyUpdate c now) s)
    | none => ("new", s ++ [newRecord c now])

/-! ### Staleness sweep (`mark_inactive_campaigns`, app.py 384-409;
`CampaignScheduler._mark_inactive_campaigns` is the same code) -/

/-- `(datetime.utcnow() - campaign.last_seen_date).days` for the reachable
case `last_seen_date ≤ now`; for a future `last_seen_date` Python yields a
negative day count and this model yields `0`, and both fail the `> 3` test. -/
def daysSince (now last : Nat) : Nat := (now - last) / 86400

/-- The per-row body of the sweep loop: an active `Marriott` row whose name is
not among the batch names and whose last sighting is more than 3 whole days
old is deactivated; every other row is untouched. -/
def sweepOne (names : List String) (now : Nat) (r : CampaignRecord) : CampaignRecord :=
  if r.competitor_name = "Marriott" ∧ r.is_active = true ∧
      r.campaign_name ∉ names ∧ 3 < daysSince now r.last_seen_date
  then { r with is_active := false } else r

/-- `mark_inactive_campaigns`: the loop body applies to each row
independently (the query filter `competitor_name='Marriott', is_active=True`
and the `not in current_names` / day-count tests are all inside `sweepOne`). -/
def mark_inactive_campaigns (names : List String) (s : List CampaignRecord) (now : Nat) :
    List CampaignRecord :=
  s.map (sweepOne names now)

/-- `current_names = {c.get('campaign_name') for c in current_campaigns if
c.get('campaign_name')}`: the non-empty names of the batch. -/
def batchNames (batch : List Candidate) : List String :=
  (batch.map (fun c => c.campaign_name)).filter (fun n => decide (n ≠ ""))

/-! ### Batch processing and reconciliation (`trigger_scrape` body,
app.py 244-258 / `scrape_job`, scheduler.py 59-72) -/

/-- The `for campaign_data in campaigns_data: save_campaign(...)` loop,
returning each candidate's classification and the final store. -/
def processBatch : List Candidate → List CampaignRecord → Nat →
    List (Candidate × String) × List CampaignRecord
  | [], s, _ => ([], s)
  | c :: rest, s, now =>
    let res := save_campaign c s now
    let tail := processBatch rest res.2 now
    ((c, res.1) :: tail.1, tail.2)

/-- The reconciliation core: save every candidate in batch order, then run the
staleness sweep — but only when the batch is non-empty
(`if campaigns_data: mark_inactive_campaigns(campaigns_data)`). -/
def reconcile (batch : List Candidate) (s : List CampaignRecord) (now : Nat) :
    List (Candidate × String) × List CampaignRecord :=
  let pb := processBatch batch s now
  (pb.1, if batch.isEmpty then pb.2 else mark_inactive_campaigns (batchNames batch) pb.2 now)

/-! ### Failure-aware batch processing.

`save_campaign` ends in `db.session.commit()`, which the persistence layer may
reject.  `rejects` models which candidates' writes the store refuses; a refused
write raises, the raise leaves the committed store unchanged, and — because the
`for` loop in `trigger_scrape` / `scrape_job` has no per-record handler — it
aborts the loop. -/

/-- `save_campaign` with a fallible commit. -/
def save_campaignF (rejects : Candidate → Bool) (c : Candidate)
    (s : List CampaignRecord) (now : Nat) :
    Except String (String × List CampaignRecord) :=
  if c.campaign_name = "" then Except.ok ("skipped", s)
  else if rejects c then Except.error "db write rejected"
  else Except.ok (save_campaign c s now)

/-- The save loop under a fallible store: the first raised exception stops the
loop and propagates (third component); candidates after it are not processed. -/
def processBatchF (rejects : Candidate → Bool) :
    List Candidate → List CampaignRecord → Nat →
    List (Candidate × String) × List CampaignRecord × Option String
  | [], s, _ => ([], s, none)
  | c :: rest, s, now =>
    match save_campaignF rejects c s now with
    | Except.error e => ([], s, some e)
    | Except.ok res =>
      let tail := processBatchF rejects rest res.2 now
      ((c, res.1) :: tail.1, tail.2.1, tail.2.2)

/-! ### Demo data (`get_demo_campaigns`, scraper.py 386-455) -/

/-- `get_demo_campaigns`: the built-in eight-record demo dataset;
`scraped_date` is `datetime.utcnow()` at the call. -/
def get_demo_campaigns (now : Nat) : List Candidate :=
  [ { campaign_name := "万豪旅享家亲子主题房"
      campaign_info := "为家庭旅客打造的专属主题房体验，包含儿童欢迎礼品、亲子活动及家庭套餐优惠。入住即享专属儿童用品和游乐设施。"
      source_url := "https://www.marriott.com.cn/specials/family-theme-room.mi"
      category := "family", scraped_date := now, competitor_name := "Marriott" },
    { campaign_name := "万豪旅享家会员积分加倍"
      campaign_info := "限时活动：预订指定酒店可获得双倍积分奖励。会员专享，积分可兑换免费住宿及多种礼遇。"
      source_url := "https://www.marriott.com.cn/marriott-bonvoy/double-points.mi"
      category := "rewards", scraped_date := now, competitor_name := "Marriott" },
    { campaign_name := "春季美食节特别优惠"
      campaign_info := "品尝春季限定美食，指定餐厅消费满额享8折优惠。包含多款时令菜品和精选套餐。"
      source_url := "https://www.marriott.com.cn/dining/spring-food-festival.mi"
      category := "dining", scraped_date := now, competitor_name := "Marriott" },
    { campaign_name := "商务差旅尊享计划"
      campaign_info := "为商务旅客定制的专属礼遇，包含延迟退房、行政酒廊使用权及专属商务服务。"
      source_url := "https://www.marriott.com.cn/specials/business-travel.mi"
      category := "business", scraped_date := now, competitor_name := "Marriott" },
    { campaign_name := "水疗养生套餐"
      campaign_info := "尊享90分钟身心放松体验，包含特色按摩及水疗护理。预订住宿套餐可享专属折扣。"
      source_url := "https://www.marriott.com.cn/specials/spa-wellness.mi"
      category := "spa", scraped_date := now, competitor_name := "Marriott" },
    { campaign_name := "周末度假特惠"
      campaign_info := "周五至周日入住指定度假酒店，享房价7折优惠，含双人早餐及度假村活动体验。"
      source_url := "https://www.marriott.com.cn/specials/weekend-getaway.mi"
      category := "travel", scraped_date := now, competitor_name := "Marriott" },
    { campaign_name := "新会员首住礼遇"
      campaign_info := "新注册万豪旅享家会员首次入住即获500积分奖励，更有机会升级房型。"
      source_url := "https://www.marriott.com.cn/marriott-bonvoy/new-member.mi"
      category := "rewards", scraped_date := now, competitor_name := "Marriott" },
    { campaign_name := "婚礼场地预订优惠"
      campaign_info := "2024年婚宴预订享专属优惠，包含场地布置、定制菜单及新人住宿礼遇。"
      source_url := "https://www.marriott.com.cn/meetings/weddings.mi"
      category := "wedding", scraped_date := now, competitor_name := "Marriott" } ]

/-! ### The run pipeline (`trigger_scrape`, app.py 221-301; `scrape_job`,
scheduler.py 41-107, is the same control flow) -/

/-- The batch the pipeline reconciles: demo data when demo mode was requested,
otherwise the live scrape result, with the demo data substituted when the live
scrape returned nothing. -/
def pipelineBatch (use_demo : Bool) (scraped : List Candidate) (now : Nat) : List Candidate :=
  if use_demo then get_demo_campaigns now
  else if scraped.isEmpty then get_demo_campaigns now
  else scraped

/-- A `scrape_logs` row (`models.py`), restricted to the fields the pipeline
writes; `error_message = ""` models SQL `NULL`. -/
structure ScrapeLogEntry where
  status : String
  campaigns_found : Nat
  new_campaigns : Nat
  error_message : String
deriving DecidableEq

/-- What one pipeline invocation produces: the committed store, the audit-log
rows appended by this run, and the JSON response's success flag and counts. -/
structure RunOutcome where
  store : List CampaignRecord
  logs : List ScrapeLogEntry
  ok : Bool
  found : Nat
  newCount : Nat
  updatedCount : Nat
deriving DecidableEq

/-- The scrape-and-reconcile pipeline.  `scraped` is the (abstracted) result
of `scraper.scrape_all()`; `rejects` models which candidate writes the store
refuses; `logFail` models the audit-log write itself being refused.  On a save
exception the loop aborts, the sweep and success log are skipped, and the
`except` branch writes a `failed` log — itself wrapped in `try/except: pass`,
so a refused audit write is swallowed and no row is appended.  On the success
path the log write is not guarded: if it is refused, control also reaches the
`except` branch, whose own log write is refused for the same reason, and the
run ends with no audit row and a failure response. -/
def trigger_scrape (use_demo : Bool) (scraped : List Candidate) (rejects : Candidate → Bool)
    (logFail : Bool) (store : List CampaignRecord) (now : Nat) : RunOutcome :=
  let batch := pipelineBatch use_demo scraped now
  let res := processBatchF rejects batch store now
  match res.2.2 with
  | some e =>
    { store := res.2.1
      logs := if logFail then [] else [⟨"failed", 0, 0, e⟩]
      ok := false, found := 0, newCount := 0, updatedCount := 0 }
  | none =>
    let s2 := if batch.isEmpty then res.2.1
              else mark_inactive_campaigns (batchNames batch) res.2.1 now
    let nc := (res.1.filter (fun p => decide (p.2 = "new"))).length
    let uc := (res.1.filter (fun p => decide (p.2 = "updated"))).length
    if logFail then
      { store := s2, logs := [], ok := false, found := 0, newCount := 0, updatedCount := 0 }
    else
      { store := s2, logs := [⟨"success", batch.length, nc, ""⟩]
        ok := true, found := batch.length, newCount := nc, updatedCount := uc }

/-! ### Element extraction (`_extract_campaign_from_element`, scraper.py 237-295) -/

/-- A document node as the extractor observes it: its text content and, for
anchors, an optional `href` attribute.  Equality is content equality, matching
BeautifulSoup tag comparison. -/
structure Node where
  text : String
  href : Option String := none
deriving DecidableEq

/-- A parsed element, abstracted to its `select_one` behaviour: for each CSS
selector, the first matching descendant (if any).  Selectors never queried by
the code need not be listed. -/
structure Elem where
  sels : List (String × Node)
deriving DecidableEq

/-- `element.select_one(selector)`. -/
def select_one (e : Elem) (sel : String) : Option Node :=
  (e.sels.find? (fun p => decide (p.1 = sel))).map (fun p => p.2)

/-- The ordered name selector cascade (scraper.py 251). -/
def name_selectors : List String :=
  ["h1", "h2", "h3", "h4", ".title", ".name", ".heading", "[class*=\"title\"]"]

/-- The ordered description selector cascade (scraper.py 265). -/
def info_selectors : List String :=
  ["p", ".description", ".info", ".content", ".summary", "[class*=\"desc\"]"]

/-- The name-resolution loop (scraper.py 253-258).  The accumulator is the
Python local `name`: it is (re)assigned for every selector that matches, and
the loop breaks only when the cleaned text is non-empty and longer than 3
characters — so when no selector's text passes the test, `name` is left
holding the cleaned text of the last selector that matched. -/
def resolveNameAux (e : Elem) : List String → Option String → Option String
  | [], name => name
  | sel :: rest, name =>
    match select_one e sel with
    | none => resolveNameAux e rest name
    | some nd =>
      let n := clean_text nd.text
      if n ≠ "" ∧ 3 < n.length then some n
      else resolveNameAux e rest (some n)

/-- The description-resolution loop (scraper.py 264-272), with the same
last-assignment behaviour; a match equal to `element.select_one('h1')`
(the node already used by the first name selector) is skipped. -/
def resolveInfoAux (e : Elem) (h1 : Option Node) : List String → Option String → Option String
  | [], info => info
  | sel :: rest, info =>
    match select_one e sel with
    | none => resolveInfoAux e h1 rest info
    | some nd =>
      if some nd = h1 then resolveInfoAux e h1 rest info
      else
        let i := clean_text nd.text
        if i ≠ "" ∧ 10 < i.length then some i
        else resolveInfoAux e h1 rest (some i)

/-- Simplified model of `urllib.parse.urljoin`: an href that already carries a
scheme stands alone, any other is resolved against the base.  No claim in this
development depends on the internals of URL resolution. -/
def urljoin (base rel : String) : String :=
  if strContains rel "://" then rel else base ++ rel

/-- `_extract_campaign_from_element`: resolve a name (give up only when the
final `name` is `None`/empty), then a description, a link and a category, and
assemble the candidate dict with the current timestamp `now` as
`scraped_date`. -/
def extract_campaign_from_element (e : Elem) (source_url : String) (now : Nat) :
    Option Candidate :=
  match resolveNameAux e name_selectors none with
  | none => none
  | some name =>
    if name = "" then none
    else
      let info := resolveInfoAux e (select_one e "h1") info_selectors none
      let infoStr := match info with | none => "" | some i => i
      let campaign_url :=
        match select_one e "a" with
        | some link =>
          match link.href with
          | some h => if h = "" then source_url else urljoin source_url h
          | none => source_url
        | none => source_url
      some { campaign_name := name
             campaign_info := infoStr
             source_url := campaign_url
             category := detect_category (name ++ " " ++ infoStr)
             scraped_date := now
             competitor_name := "Marriott" }

/-! ### Aggregation and dedup (`scrape_all`, scraper.py 342-382)

The three per-URL page scans (`scrape_homepage`, `scrape_offers_page`,
`scrape_bonvoy_page`) perform network fetches; `scrape_all` routes each URL to
one of them by substring and iterates the returned candidate lists in URL
order.  The embedding abstracts those scans as `pages`: the per-URL candidate
lists, in configured URL order (a URL whose scan failed or fetched nothing
contributes `[]`).  The dedup loop of lines 359-377 is embedded exactly:
a candidate is kept iff its name is non-empty and not yet in `seen_names`. -/

/-- The `seen_names` dedup loop of `scrape_all`. -/
def dedupAux : List Candidate → List String → List Candidate
  | [], _ => []
  | c :: rest, seen =>
    if c.campaign_name ≠ "" ∧ c.campaign_name ∉ seen then
      c :: dedupAux rest (c.campaign_name :: seen)
    else dedupAux rest seen

/-- `scrape_all` over the per-URL scan results: concatenate in URL order and
deduplicate by exact campaign name, first occurrence winning. -/
def scrape_all (pages : List (List Candidate)) : List Candidate :=
  dedupAux pages.flatten []

/-- Observation predicate: does a candidate carry exactly the campaign name `n`? -/
def hasName (n : String) (c : Candidate) : Bool := decide (c.campaign_name = n)

/-! ### Helper lemmas -/

theorem hasName_true {n : String} {c : Candidate} (h : c.campaign_name = n) :
    hasName n c = true := by
  unfold hasName
  simp only [decide_eq_true_eq]
  exact h

theorem hasName_false {n : String} {c : Candidate} (h : ¬ c.campaign_name = n) :
    ¬ hasName n c = true := by
  unfold hasName
  simp only [decide_eq_true_eq]
  exact h

theorem mem_of_index {α : Type} : ∀ {l : List α} {i : Nat} {a : α}, l[i]? = some a → a ∈ l
  | [], i, a, h => by simp at h
  | b :: l, 0, a, h => by simp at h; exact h ▸ List.mem_cons_self b l
  | b :: l, i + 1, a, h => by
    rw [List.getElem?_cons_succ] at h
    exact List.mem_cons_of_mem b (mem_of_index h)

theorem find?_append_of_none {α : Type} (p : α → Bool) :
    ∀ {l₁ : List α} (l₂ : List α), l₁.find? p = none → (l₁ ++ l₂).find? p = l₂.find? p
  | [], l₂, _ => rfl
  | a :: l₁, l₂, h => by
    have hp : ¬ p a := by
      intro hpa
      rw [List.find?_cons_of_pos _ hpa] at h
      exact Option.noConfusion h
    rw [List.find?_cons_of_neg _ hp] at h
    rw [List.cons_append, List.find?_cons_of_neg _ hp]
    exact find?_append_of_none p l₂ h

theorem find?_append_of_some {α : Type} (p : α → Bool) :
    ∀ {l₁ : List α} (l₂ : List α) {a : α}, l₁.find? p = some a → (l₁ ++ l₂).find? p = some a
  | [], _, _, h => by simp at h
  | b :: l₁, l₂, a, h => by
    by_cases hp : p b
    · rw [List.find?_cons_of_pos _ hp] at h
      rw [List.cons_append, List.find?_cons_of_pos _ hp]
      exact h
    · rw [List.find?_cons_of_neg _ hp] at h
      rw [List.cons_append, List.find?_cons_of_neg _ hp]
      exact find?_append_of_some p l₂ h

theorem find?_updateFirst_hit (p : CampaignRecord → Bool) (f : CampaignRecord → CampaignRecord)
    (hpres : ∀ x, p (f x) = p x) :
    ∀ (s : List CampaignRecord) {r : CampaignRecord}, s.find? p = some r →
      (updateFirst p f s).find? p = some (f r)
  | [], r, h => by simp at h
  | b :: s, r, h => by
    unfold updateFirst
    by_cases hp : p b
    · rw [List.find?_cons_of_pos _ hp] at h
      rw [if_pos hp, List.find?_cons_of_pos _ (by rw [hpres b]; exact hp)]
      rw [Option.some_inj] at h
      rw [h]
    · rw [List.find?_cons_of_neg _ hp] at h
      rw [if_neg hp, List.find?_cons_of_neg _ hp]
      exact find?_updateFirst_hit p f hpres s h

theorem find?_updateFirst_of_ne (p q : CampaignRecord → Bool) (f : CampaignRecord → CampaignRecord)
    (hq : ∀ x, q (f x) = q x) (hdisj : ∀ x, p x = true → q x = false) :
    ∀ s : List CampaignRecord, (updateFirst p f s).find? q = s.find? q
  | [] => rfl
  | b :: s => by
    unfold updateFirst
    by_cases hp : p b
    · have hqb : ¬ q b := by rw [hdisj b hp]; exact Bool.false_ne_true
      have hqfb : ¬ q (f b) := by rw [hq b]; exact hqb
      rw [if_pos hp, List.find?_cons_of_neg _ hqfb, List.find?_cons_of_neg _ hqb]
    · rw [if_neg hp]
      by_cases hqb : q b
      · rw [List.find?_cons_of_pos _ hqb, List.find?_cons_of_pos _ hqb]
      · rw [List.find?_cons_of_neg _ hqb, List.find?_cons_of_neg _ hqb]
        exact find?_updateFirst_of_ne p q f hq hdisj s

theorem findByIdentity_save_self (c : Candidate) (s : List CampaignRecord) (now : Nat)
    (hname : c.campaign_name ≠ "") :
    ∃ r, findByIdentity c.campaign_name c.competitor_name (save_campaign c s now).2 = some r ∧
      r.is_active = true ∧ r.last_seen_date = now := by
  unfold save_campaign
  rw [if_neg hname]
  cases hfind : findByIdentity c.campaign_name c.competitor_name s with
  | none =>
    refine ⟨newRecord c now, ?_, rfl, rfl⟩
    unfold findByIdentity at hfind ⊢
    rw [find?_append_of_none _ _ hfind, List.find?_cons]
    simp [newRecord]
  | some r₀ =>
    refine ⟨applyUpdate c now r₀, ?_, rfl, rfl⟩
    unfold findByIdentity at hfind ⊢
    exact find?_updateFirst_hit (idPred c) (applyUpdate c now) (fun x => rfl) s hfind

theorem findByIdentity_save_other (c : Candidate) (s : List CampaignRecord) (now : Nat)
    (n k : String) (hne : ¬(n = c.campaign_name ∧ k = c.competitor_name)) :
    findByIdentity n k (save_campaign c s now).2 = findByIdentity n k s := by
  unfold save_campaign
  by_cases hname : c.campaign_name = ""
  · rw [if_pos hname]
  · rw [if_neg hname]
    cases hfind : findByIdentity c.campaign_name c.competitor_name s with
    | none =>
      show (s ++ [newRecord c now]).find?
          (fun r => decide (r.campaign_name = n ∧ r.competitor_name = k)) = findByIdentity n k s
      cases hq : s.find? (fun r => decide (r.campaign_name = n ∧ r.competitor_name = k)) with
      | some a =>
        rw [find?_append_of_some _ _ hq]
        exact hq.symm
      | none =>
        rw [find?_append_of_none _ _ hq]
        show List.find? _ [newRecord c now] = _
        rw [List.find?_cons_of_neg, List.find?_nil]
        · exact hq.symm
        · simp only [decide_eq_true_eq]
          intro hk2
          exact hne ⟨hk2.1.symm, hk2.2.symm⟩
    | some r₀ =>
      show (updateFirst (idPred c) (applyUpdate c now) s).find?
          (fun r => decide (r.campaign_name = n ∧ r.competitor_name = k)) = findByIdentity n k s
      refine find?_updateFirst_of_ne (idPred c)
        (fun r => decide (r.campaign_name = n ∧ r.competitor_name = k))
        (applyUpdate c now) (fun x => rfl) ?_ s
      intro x hx
      unfold idPred at hx
      simp only [decide_eq_true_eq] at hx
      simp only [decide_eq_false_iff_not]
      intro hk2
      exact hne ⟨hk2.1.symm.trans hx.1, hk2.2.symm.trans hx.2⟩

theorem save_preserves_active (c : Candidate) (s : List CampaignRecord) (now : Nat)
    (n k : String) (h : ∃ r, findByIdentity n k s = some r ∧ r.is_active = true) :
    ∃ r, findByIdentity n k (save_campaign c s now).2 = some r ∧ r.is_active = true := by
  by_cases hid : n = c.campaign_name ∧ k = c.competitor_name
  · obtain ⟨hn, hk⟩ := hid
    subst hn; subst hk
    by_cases hname : c.campaign_name = ""
    · unfold save_campaign
      rw [if_pos hname]
      exact h
    · obtain ⟨r, hr, hact, _⟩ := findByIdentity_save_self c s now hname
      exact ⟨r, hr, hact⟩
  · rw [findByIdentity_save_other c s now n k hid]
    exact h

theorem processBatch_fst_pairs : ∀ (batch : List Candidate) (s : List CampaignRecord) (now : Nat),
    (processBatch batch s now).1.map Prod.fst = batch
  | [], _, _ => rfl
  | c :: rest, s, now => by
    unfold processBatch
    simp only [List.map_cons]
    rw [processBatch_fst_pairs rest]

theorem processBatch_preserves_active :
    ∀ (batch : List Candidate) (s : List CampaignRecord) (now : Nat) (n k : String),
    (∃ r, findByIdentity n k s = some r ∧ r.is_active = true) →
    ∃ r, findByIdentity n k (processBatch batch s now).2 = some r ∧ r.is_active = true
  | [], _, _, _, _, h => h
  | c :: rest, s, now, n, k, h => by
    unfold processBatch
    exact processBatch_preserves_active rest _ now n k (save_preserves_active c s now n k h)

theorem processBatch_establishes :
    ∀ (batch : List Candidate) (s : List CampaignRecord) (now : Nat) (c : Candidate),
    c ∈ batch → c.campaign_name ≠ "" →
    ∃ r, findByIdentity c.campaign_name c.competitor_name (processBatch batch s now).2 = some r ∧
      r.is_active = true
  | [], _, _, _, hmem, _ => absurd hmem (List.not_mem_nil _)
  | b :: rest, s, now, c, hmem, hname => by
    unfold processBatch
    rcases List.mem_cons.mp hmem with hc | hc
    · subst hc
      have h1 := findByIdentity_save_self c s now hname
      exact processBatch_preserves_active rest _ now _ _ ⟨h1.choose, h1.choose_spec.1, h1.choose_spec.2.1⟩
    · exact processBatch_establishes rest _ now c hc hname

theorem save_result_updated (c : Candidate) (s : List CampaignRecord) (now : Nat)
    (hname : c.campaign_name ≠ "")
    (h : ∃ r, findByIdentity c.campaign_name c.competitor_name s = some r) :
    (save_campaign c s now).1 = "updated" := by
  obtain ⟨r, hr⟩ := h
  unfold save_campaign
  rw [if_neg hname, hr]

theorem processBatch_all_updated :
    ∀ (batch : List Candidate) (s : List CampaignRecord) (now : Nat),
    (∀ c ∈ batch, c.campaign_name ≠ "" →
      ∃ r, findByIdentity c.campaign_name c.competitor_name s = some r ∧ r.is_active = true) →
    ∀ p ∈ (processBatch batch s now).1, p.1.campaign_name ≠ "" → p.2 = "updated"
  | [], _, _, _, _, hmem, _ => absurd hmem (List.not_mem_nil _)
  | c :: rest, s, now, hinv, p, hmem, hname => by
    unfold processBatch at hmem
    rcases List.mem_cons.mp hmem with hp | hp
    · subst hp
      have h := hinv c (List.mem_cons_self c rest) hname
      exact save_result_updated c s now hname ⟨h.choose, h.choose_spec.1⟩
    · refine processBatch_all_updated rest _ now ?_ p hp hname
      intro c' hc' hn'
      exact save_preserves_active c s now _ _ (hinv c' (List.mem_cons_of_mem c hc') hn')

theorem sweepOne_preserves_name (names : List String) (now : Nat) (r : CampaignRecord) :
    (sweepOne names now r).campaign_name = r.campaign_name := by
  unfold sweepOne
  split <;> rfl

theorem sweepOne_preserves_comp (names : List String) (now : Nat) (r : CampaignRecord) :
    (sweepOne names now r).competitor_name = r.competitor_name := by
  unfold sweepOne
  split <;> rfl

theorem sweepOne_of_mem (names : List String) (now : Nat) (r : CampaignRecord)
    (h : r.campaign_name ∈ names) : sweepOne names now r = r := by
  unfold sweepOne
  rw [if_neg]
  intro hcond
  exact hcond.2.2.1 h

theorem findByIdentity_cons_of_pos (n k : String) (r : CampaignRecord) (s : List CampaignRecord)
    (h : r.campaign_name = n ∧ r.competitor_name = k) :
    findByIdentity n k (r :: s) = some r :=
  List.find?_cons_of_pos _ (by simp only [decide_eq_true_eq]; exact h)

theorem findByIdentity_cons_of_neg (n k : String) (r : CampaignRecord) (s : List CampaignRecord)
    (h : ¬(r.campaign_name = n ∧ r.competitor_name = k)) :
    findByIdentity n k (r :: s) = findByIdentity n k s :=
  List.find?_cons_of_neg _ (by simp only [decide_eq_true_eq]; exact h)

theorem findByIdentity_sweep_of_mem (names : List String) (now : Nat) (n k : String)
    (hn : n ∈ names) :
    ∀ s : List CampaignRecord,
      findByIdentity n k (mark_inactive_campaigns names s now) = findByIdentity n k s
  | [] => rfl
  | r :: s => by
    show findByIdentity n k (sweepOne names now r :: mark_inactive_campaigns names s now) = _
    by_cases hq : ((r.campaign_name = n ∧ r.competitor_name = k) : Prop)
    · have hrmem : r.campaign_name ∈ names := hq.1 ▸ hn
      rw [sweepOne_of_mem names now r hrmem]
      rw [findByIdentity_cons_of_pos n k r _ hq, findByIdentity_cons_of_pos n k r s hq]
    · have hq2 : ¬((sweepOne names now r).campaign_name = n ∧
          (sweepOne names now r).competitor_name = k) := by
        rw [sweepOne_preserves_name, sweepOne_preserves_comp]
        exact hq
      rw [findByIdentity_cons_of_neg n k _ _ hq2, findByIdentity_cons_of_neg n k r s hq]
      exact findByIdentity_sweep_of_mem names now n k hn s

theorem batchNames_of_mem (batch : List Candidate) (c : Candidate) (hc : c ∈ batch)
    (hn : c.campaign_name ≠ "") : c.campaign_name ∈ batchNames batch := by
  unfold batchNames
  rw [List.mem_filter]
  exact ⟨List.mem_map.mpr ⟨c, hc, rfl⟩, by simp [hn]⟩

theorem reconcile_establishes (batch : List Candidate) (s : List CampaignRecord) (now : Nat)
    (c : Candidate) (hc : c ∈ batch) (hn : c.campaign_name ≠ "") :
    ∃ r, findByIdentity c.campaign_name c.competitor_name (reconcile batch s now).2 = some r ∧
      r.is_active = true := by
  unfold reconcile
  have hne : batch.isEmpty = false := by
    cases batch with
    | nil => exact absurd hc (List.not_mem_nil _)
    | cons a l => rfl
  rw [hne]
  show ∃ r, findByIdentity _ _ (mark_inactive_campaigns (batchNames batch) _ now) = some r ∧ _
  rw [findByIdentity_sweep_of_mem _ now _ _ (batchNames_of_mem batch c hc hn)]
  exact processBatch_establishes batch s now c hc hn

theorem processBatchF_noReject :
    ∀ (batch : List Candidate) (s : List CampaignRecord) (now : Nat),
    processBatchF (fun _ => false) batch s now
      = ((processBatch batch s now).1, (processBatch batch s now).2, none)
  | [], _, _ => rfl
  | c :: rest, s, now => by
    unfold processBatchF processBatch
    have hsv : save_campaignF (fun _ => false) c s now = Except.ok (save_campaign c s now) := by
      unfold save_campaignF save_campaign
      by_cases hname : c.campaign_name = ""
      · rw [if_pos hname, if_pos hname]
      · rw [if_neg hname, if_neg hname, if_neg (by exact Bool.false_ne_true)]
    rw [hsv]
    simp only
    rw [processBatchF_noReject rest]

theorem daysSince_add (t k : Nat) : daysSince (t + k * 86400) t = k := by
  unfold daysSince
  rw [Nat.add_sub_cancel_left]
  exact Nat.mul_div_cancel k (by norm_num)

theorem dedupAux_filter_of_mem (n : String) :
    ∀ (l : List Candidate) (seen : List String), n ∈ seen →
      (dedupAux l seen).filter (hasName n) = []
  | [], _, _ => rfl
  | c :: rest, seen, hn => by
    unfold dedupAux
    by_cases h : (c.campaign_name ≠ "" ∧ c.campaign_name ∉ seen : Prop)
    · rw [if_pos h, List.filter_cons]
      have hcn : ¬ (c.campaign_name = n) := fun he => h.2 (he ▸ hn)
      rw [if_neg (hasName_false hcn)]
      exact dedupAux_filter_of_mem n rest _ (List.mem_cons_of_mem _ hn)
    · rw [if_neg h]
      exact dedupAux_filter_of_mem n rest seen hn

theorem dedupAux_filter_length (n : String) (hn : n ≠ "") :
    ∀ (l : List Candidate) (seen : List String), n ∉ seen →
      n ∈ l.map (fun c => c.campaign_name) →
      ((dedupAux l seen).filter (hasName n)).length = 1
  | [], _, _, hmem => by simp at hmem
  | c :: rest, seen, hseen, hmem => by
    unfold dedupAux
    by_cases h : (c.campaign_name ≠ "" ∧ c.campaign_name ∉ seen : Prop)
    · rw [if_pos h, List.filter_cons]
      by_cases hcn : c.campaign_name = n
      · rw [if_pos (hasName_true hcn)]
        rw [List.length_cons, dedupAux_filter_of_mem n rest _ (hcn ▸ List.mem_cons_self _ _)]
        rfl
      · rw [if_neg (hasName_false hcn)]
        have hmem' : n ∈ rest.map (fun c => c.campaign_name) := by
          rcases List.mem_map.mp hmem with ⟨d, hd, hdn⟩
          rcases List.mem_cons.mp hd with rfl | hd'
          · exact absurd hdn hcn
          · exact List.mem_map.mpr ⟨d, hd', hdn⟩
        refine dedupAux_filter_length n hn rest _ ?_ hmem'
        intro hx
        rcases List.mem_cons.mp hx with hx1 | hx2
        · exact hcn hx1.symm
        · exact hseen hx2
    · rw [if_neg h]
      have hcn : ¬ (c.campaign_name = n) := by
        intro he
        rcases not_and_or.mp h with h1 | h2
        · exact hn (he ▸ not_not.mp h1)
        · exact hseen (he ▸ not_not.mp h2)
      have hmem' : n ∈ rest.map (fun c => c.campaign_name) := by
        rcases List.mem_map.mp hmem with ⟨d, hd, hdn⟩
        rcases List.mem_cons.mp hd with rfl | hd'
        · exact absurd hdn hcn
        · exact List.mem_map.mpr ⟨d, hd', hdn⟩
      exact dedupAux_filter_length n hn rest seen hseen hmem'

theorem dedupAux_find? (n : String) (hn : n ≠ "") :
    ∀ (l : List Candidate) (seen : List String), n ∉ seen →
      (dedupAux l seen).find? (hasName n) = l.find? (hasName n)
  | [], _, _ => rfl
  | c :: rest, seen, hseen => by
    unfold dedupAux
    by_cases h : (c.campaign_name ≠ "" ∧ c.campaign_name ∉ seen : Prop)
    · rw [if_pos h]
      by_cases hcn : c.campaign_name = n
      · rw [List.find?_cons_of_pos _ (hasName_true hcn),
            List.find?_cons_of_pos _ (hasName_true hcn)]
      · rw [List.find?_cons_of_neg _ (hasName_false hcn),
            List.find?_cons_of_neg _ (hasName_false hcn)]
        refine dedupAux_find? n hn rest _ ?_
        intro hx
        rcases List.mem_cons.mp hx with hx1 | hx2
        · exact hcn hx1.symm
        · exact hseen hx2
    · rw [if_neg h]
      have hcn : ¬ (c.campaign_name = n) := by
        intro he
        rcases not_and_or.mp h with h1 | h2
        · exact hn (he ▸ not_not.mp h1)
        · exact hseen (he ▸ not_not.mp h2)
      rw [List.find?_cons_of_neg _ (hasName_false hcn)]
      exact dedupAux_find? n hn rest seen hseen

theorem detect_category_aux_of_no_match :
    ∀ (l : List (String × List String)) (tl : String),
      (∀ e ∈ l, entryMatches e tl = false) → detect_category_aux l tl = "general"
  | [], _, _ => rfl
  | e :: rest, tl, h => by
    unfold detect_category_aux
    rw [h e (List.mem_cons_self e rest)]
    exact detect_category_aux_of_no_match rest tl
      (fun e' he' => h e' (List.mem_cons_of_mem e he'))

theorem detect_category_aux_of_earlier :
    ∀ (l : List (String × List String)) (tl : String) (i j : Nat)
      (ei ej : String × List String),
      l[i]? = some ei → l[j]? = some ej → i < j → entryMatches ei tl = true →
      (l.map Prod.fst).Nodup → detect_category_aux l tl ≠ ej.1
  | [], _, i, _, _, _, hi, _, _, _, _ => by simp at hi
  | e :: rest, tl, i, j, ei, ej, hi, hj, hij, hm, hnd => by
    have hnd0 : (e.1 :: rest.map Prod.fst).Nodup := by
      rw [List.map_cons] at hnd
      exact hnd
    have hnd' := List.nodup_cons.mp hnd0
    cases j with
    | zero => exact absurd hij (Nat.not_lt_zero i)
    | succ j' =>
      rw [List.getElem?_cons_succ] at hj
      by_cases hme : entryMatches e tl = true
      · unfold detect_category_aux
        rw [hme, if_pos rfl]
        intro heq
        exact hnd'.1 (heq ▸ List.mem_map.mpr ⟨ej, mem_of_index hj, rfl⟩)
      · unfold detect_category_aux
        rw [Bool.not_eq_true] at hme
        rw [hme]
        simp only [Bool.false_eq_true, if_false]
        cases i with
        | zero =>
          rw [List.getElem?_cons_zero] at hi
          rw [Option.some_inj] at hi
          rw [hi] at hme
          rw [hm] at hme
          exact absurd hme (by simp)
        | succ i' =>
          rw [List.getElem?_cons_succ] at hi
          exact detect_category_aux_of_earlier rest tl i' j' ei ej hi hj
            (Nat.lt_of_succ_lt_succ hij) hm hnd'.2

theorem detect_category_aux_first_match :
    ∀ (l : List (String × List String)) (tl : String) (i : Nat) (ei : String × List String),
      l[i]? = some ei → entryMatches ei tl = true →
      (∀ j < i, ∀ ej, l[j]? = some ej → entryMatches ej tl = false) →
      detect_category_aux l tl = ei.1
  | [], _, i, _, hi, _, _ => by simp at hi
  | e :: rest, tl, i, ei, hi, hm, hearlier => by
    cases i with
    | zero =>
      rw [List.getElem?_cons_zero, Option.some_inj] at hi
      subst hi
      unfold detect_category_aux
      rw [hm, if_pos rfl]
    | succ i' =>
      rw [List.getElem?_cons_succ] at hi
      have hme : entryMatches e tl = false :=
        hearlier 0 (Nat.succ_pos i') e List.getElem?_cons_zero
      unfold detect_category_aux
      rw [hme]
      simp only [Bool.false_eq_true, if_false]
      refine detect_category_aux_first_match rest tl i' ei hi hm ?_
      intro j hj ej hej
      exact hearlier (j + 1) (Nat.succ_lt_succ hj) ej
        (by rw [List.getElem?_cons_succ]; exact hej)

/-! ### Claim theorems -/

/-- Claim C1, counterexample to the claim as stated: a candidate discovered at
time 0 and saved at time 86400 into an empty store is classified `new`, but
the created record has `lastSeenAt = 86400` (the save time) while
`firstSeenAt = discoveredAt = 0` — so `firstSeenAt = lastSeenAt = discoveredAt`
fails on the create branch. -/
theorem save_campaign_new_lastseen_cex :
    (save_campaign ⟨"测试活动", "", "", "general", 0, "Marriott"⟩ [] 86400).1 = "new"
    ∧ ∃ r, findByIdentity "测试活动" "Marriott"
          (save_campaign ⟨"测试活动", "", "", "general", 0, "Marriott"⟩ [] 86400).2 = some r
        ∧ r.scraped_date = 0 ∧ r.last_seen_date = 86400 ∧ r.last_seen_date ≠ r.scraped_date := by
  refine ⟨rfl, ⟨"测试活动", "", "", "general", 0, 86400, true, "Marriott"⟩, ?_, rfl, rfl, by decide⟩
  rfl

/-- Claim C1 (amended): for every candidate with a non-empty name,
`save_campaign` creates a missing identity as an active record with
`firstSeenAt = discoveredAt` and `lastSeenAt` equal to the save time
(not to `discoveredAt`), classifying it `new`; for an existing identity it
replaces `description`/`sourceUrl`/`category` only when the incoming value is
non-empty, sets `lastSeenAt` to the current time, forces `active = true`, and
classifies it `updated`. -/
theorem save_campaign_spec (c : Candidate) (s : List CampaignRecord) (now : Nat)
    (hname : c.campaign_name ≠ "") :
    (findByIdentity c.campaign_name c.competitor_name s = none →
      (save_campaign c s now).1 = "new" ∧
      ∃ r, findByIdentity c.campaign_name c.competitor_name (save_campaign c s now).2 = some r ∧
        r.is_active = true ∧ r.scraped_date = c.scraped_date ∧ r.last_seen_date = now ∧
        r.campaign_info = c.campaign_info ∧ r.source_url = c.source_url ∧
        r.category = c.category)
    ∧ (∀ r₀, findByIdentity c.campaign_name c.competitor_name s = some r₀ →
      (save_campaign c s now).1 = "updated" ∧
      ∃ r, findByIdentity c.campaign_name c.competitor_name (save_campaign c s now).2 = some r ∧
        r.is_active = true ∧ r.last_seen_date = now ∧ r.scraped_date = r₀.scraped_date ∧
        r.campaign_info = (if c.campaign_info = "" then r₀.campaign_info else c.campaign_info) ∧
        r.source_url = (if c.source_url = "" then r₀.source_url else c.source_url) ∧
        r.category = (if c.category = "" then r₀.category else c.category)) := by
  constructor
  · intro hnone
    constructor
    · unfold save_campaign
      rw [if_neg hname, hnone]
    · refine ⟨newRecord c now, ?_, rfl, rfl, rfl, rfl, rfl, rfl⟩
      unfold save_campaign
      rw [if_neg hname, hnone]
      show findByIdentity _ _ (s ++ [newRecord c now]) = _
      unfold findByIdentity at hnone ⊢
      rw [find?_append_of_none _ _ hnone]
      exact List.find?_cons_of_pos _ (by simp only [decide_eq_true_eq]; exact ⟨rfl, rfl⟩)
  · intro r₀ h₀
    constructor
    · unfold save_campaign
      rw [if_neg hname, h₀]
    · refine ⟨applyUpdate c now r₀, ?_, rfl, rfl, rfl, rfl, rfl, rfl⟩
      unfold save_campaign
      rw [if_neg hname, h₀]
      show findByIdentity _ _ (updateFirst (idPred c) (applyUpdate c now) s) = _
      unfold findByIdentity at h₀ ⊢
      exact find?_updateFirst_hit (idPred c) (applyUpdate c now) (fun x => rfl) s h₀

/-- Claim C1, witness: the amended theorem applied at a concrete candidate and
an empty store. -/
theorem save_campaign_spec_witness :
    (save_campaign ⟨"样例活动", "", "", "general", 0, "Marriott"⟩ [] 7).1 = "new" :=
  ((save_campaign_spec ⟨"样例活动", "", "", "general", 0, "Marriott"⟩ [] 7 (by decide)).1 rfl).1

/-- Claim C2: the staleness sweep acts on each persisted row independently;
an active row of the pipeline's competitor is deactivated exactly when its
name is absent from the batch names and strictly more than 3 whole days have
elapsed since `lastSeenAt`; a row whose name appears in the batch is never
changed by the sweep; and under daily runs an absent row survives the sweeps
of days 1-3 and is deactivated by the sweep of day 4. -/
theorem mark_inactive_spec (batch : List Candidate) (s : List CampaignRecord) (now : Nat) :
    (∀ i : Nat, (mark_inactive_campaigns (batchNames batch) s now)[i]?
        = (s[i]?).map (sweepOne (batchNames batch) now))
    ∧ (∀ r : CampaignRecord, r.competitor_name = "Marriott" → r.is_active = true →
        ((sweepOne (batchNames batch) now r).is_active = false ↔
          (r.campaign_name ∉ batchNames batch ∧ 3 < daysSince now r.last_seen_date)))
    ∧ (∀ r : CampaignRecord, r.campaign_name ∈ batchNames batch →
        sweepOne (batchNames batch) now r = r)
    ∧ (∀ r : CampaignRecord, r.competitor_name = "Marriott" → r.is_active = true →
        r.campaign_name ∉ batchNames batch →
        (sweepOne (batchNames batch) (r.last_seen_date + 3 * 86400)
          (sweepOne (batchNames batch) (r.last_seen_date + 2 * 86400)
            (sweepOne (batchNames batch) (r.last_seen_date + 1 * 86400) r))).is_active = true
        ∧ (sweepOne (batchNames batch) (r.last_seen_date + 4 * 86400)
            (sweepOne (batchNames batch) (r.last_seen_date + 3 * 86400)
              (sweepOne (batchNames batch) (r.last_seen_date + 2 * 86400)
                (sweepOne (batchNames batch) (r.last_seen_date + 1 * 86400) r)))).is_active
            = false) := by
  refine ⟨?_, ?_, ?_, ?_⟩
  · intro i
    unfold mark_inactive_campaigns
    exact List.getElem?_map (sweepOne (batchNames batch) now) s i
  · intro r hcomp hact
    unfold sweepOne
    by_cases hcond : (r.competitor_name = "Marriott" ∧ r.is_active = true ∧
        r.campaign_name ∉ batchNames batch ∧ 3 < daysSince now r.last_seen_date : Prop)
    · rw [if_pos hcond]
      exact ⟨fun _ => ⟨hcond.2.2.1, hcond.2.2.2⟩, fun _ => rfl⟩
    · rw [if_neg hcond]
      constructor
      · intro hf
        rw [hact] at hf
        exact absurd hf (by simp)
      · intro h2
        exact absurd ⟨hcomp, hact, h2.1, h2.2⟩ hcond
  · intro r hmem
    exact sweepOne_of_mem _ now r hmem
  · intro r hcomp hact habs
    have hstep : ∀ k : Nat, k ≤ 3 →
        sweepOne (batchNames batch) (r.last_seen_date + k * 86400) r = r := by
      intro k hk
      unfold sweepOne
      rw [if_neg]
      intro hcond
      have h4 := hcond.2.2.2
      rw [daysSince_add] at h4
      omega
    rw [hstep 1 (by omega), hstep 2 (by omega), hstep 3 (by omega)]
    refine ⟨hact, ?_⟩
    unfold sweepOne
    rw [if_pos ⟨hcomp, hact, habs, by rw [daysSince_add]; omega⟩]

/-- Claim C2, witness: a concrete active Marriott record last seen at time 0
and absent from a concrete batch is deactivated by a sweep 4 days later. -/
theorem mark_inactive_spec_witness :
    (sweepOne (batchNames [⟨"新活动", "", "", "general", 0, "Marriott"⟩]) (4 * 86400)
      ⟨"旧活动", "", "", "general", 0, 0, true, "Marriott"⟩).is_active = false :=
  ((mark_inactive_spec [⟨"新活动", "", "", "general", 0, "Marriott"⟩] [] (4 * 86400)).2.1
    ⟨"旧活动", "", "", "general", 0, 0, true, "Marriott"⟩ rfl rfl).mpr
    ⟨by decide, by decide⟩

/-- Claim C3: reconciling an empty batch leaves the persisted store unchanged
— the staleness sweep is guarded by the batch-nonempty test, so an empty batch
never deactivates anything. -/
theorem reconcile_empty_batch_no_deactivation (s : List CampaignRecord) (now : Nat) :
    (reconcile [] s now).2 = s := rfl

/-- Claim C4: `scrape_all` deduplicates by normalized campaign name only
(the names carried by extracted candidates are `clean_text`-normalized, and
the normalizer changes nothing but whitespace): whenever two candidates of the
concatenated batch share a normalized name, their names are equal outright,
exactly one candidate with that name survives, and the survivor is the first
occurrence in URL-then-discovery order. -/
theorem scrape_all_dedup (pages : List (List Candidate))
    (hclean : ∀ c ∈ pages.flatten, clean_text c.campaign_name = c.campaign_name)
    (i j : Nat) (ci cj : Candidate)
    (hi : pages.flatten[i]? = some ci) (hj : pages.flatten[j]? = some cj)
    (hij : i < j) (hne : ci.campaign_name ≠ "")
    (hsame : clean_text ci.campaign_name = clean_text cj.campaign_name) :
    ci.campaign_name = cj.campaign_name
    ∧ ((scrape_all pages).filter (hasName ci.campaign_name)).length = 1
    ∧ (scrape_all pages).find? (hasName ci.campaign_name)
        = pages.flatten.find? (hasName ci.campaign_name) := by
  have hmi : ci ∈ pages.flatten := mem_of_index hi
  have hmj : cj ∈ pages.flatten := mem_of_index hj
  have heq : ci.campaign_name = cj.campaign_name :=
    ((hclean ci hmi).symm.trans hsame).trans (hclean cj hmj)
  refine ⟨heq, ?_, ?_⟩
  · unfold scrape_all
    exact dedupAux_filter_length ci.campaign_name hne pages.flatten []
      (List.not_mem_nil _) (List.mem_map.mpr ⟨ci, hmi, rfl⟩)
  · unfold scrape_all
    exact dedupAux_find? ci.campaign_name hne pages.flatten [] (List.not_mem_nil _)

/-- Claim C4, witness: two candidates with the same (already normalized) name
coming from two different URLs; exactly one survives deduplication. -/
theorem scrape_all_dedup_witness :
    ((scrape_all [[⟨"春季 优惠", "", "https://a", "general", 0, "Marriott"⟩],
                  [⟨"春季 优惠", "x", "https://b", "general", 0, "Marriott"⟩]]).filter
        (hasName "春季 优惠")).length = 1 :=
  (scrape_all_dedup
    [[⟨"春季 优惠", "", "https://a", "general", 0, "Marriott"⟩],
     [⟨"春季 优惠", "x", "https://b", "general", 0, "Marriott"⟩]]
    (by decide) 0 1
    ⟨"春季 优惠", "", "https://a", "general", 0, "Marriott"⟩
    ⟨"春季 优惠", "x", "https://b", "general", 0, "Marriott"⟩
    (by decide) (by decide) (by decide) (by decide) (by decide)).2.1

/-- Claim C5, failing input: an element whose only matching name selector is an
`h2` with text `"OK"` (2 characters ≤ 3).  The name loop never breaks, but the
Python local `name` keeps the last assigned value `"OK"`, the final
`if not name` guard only rejects empty strings, and a candidate named `"OK"`
is emitted — contradicting the `> 3` name threshold and the name-guard. -/
theorem extract_short_name_leak :
    extract_campaign_from_element ⟨[("h2", ⟨"OK", none⟩)]⟩
        "https://www.marriott.com.cn/default.mi" 0
      = some ⟨"OK", "", "https://www.marriott.com.cn/default.mi", "general", 0, "Marriott"⟩
    ∧ (clean_text "OK").length ≤ 3 := by
  exact ⟨by decide, by decide⟩

/-- Claim C6: the classifier returns `general` on empty input and whenever no
keyword of any category matches; equal inputs yield equal categories; when the
entry at table position `i` matches and no entry before it does, the classifier
returns exactly that entry's category — the first matching category in declared
order; and consequently when an earlier-declared category matches, the
classifier never returns a strictly later-declared category name. -/
theorem detect_category_spec :
    detect_category "" = "general"
    ∧ (∀ t : String, (∀ e ∈ CATEGORY_KEYWORDS, entryMatches e (toLowerStr t) = false) →
        detect_category t = "general")
    ∧ (∀ t₁ t₂ : String, t₁ = t₂ → detect_category t₁ = detect_category t₂)
    ∧ (∀ (t : String) (i : Nat) (ei : String × List String),
        CATEGORY_KEYWORDS[i]? = some ei → entryMatches ei (toLowerStr t) = true →
        (∀ j < i, ∀ ej, CATEGORY_KEYWORDS[j]? = some ej →
          entryMatches ej (toLowerStr t) = false) →
        detect_category t = ei.1)
    ∧ (∀ (t : String) (i j : Nat) (ei ej : String × List String),
        CATEGORY_KEYWORDS[i]? = some ei → CATEGORY_KEYWORDS[j]? = some ej → i < j →
        entryMatches ei (toLowerStr t) = true → detect_category t ≠ ej.1) := by
  refine ⟨rfl, ?_, ?_, ?_, ?_⟩
  · intro t h
    unfold detect_category
    by_cases ht : t = ""
    · rw [if_pos ht]
    · rw [if_neg ht]
      exact detect_category_aux_of_no_match _ _ h
  · intro t₁ t₂ h
    rw [h]
  · intro t i ei hi hm hearlier
    by_cases ht : t = ""
    · subst ht
      have hall : ∀ e ∈ CATEGORY_KEYWORDS, entryMatches e (toLowerStr "") = false := by decide
      rw [hall ei (mem_of_index hi)] at hm
      exact absurd hm (by simp)
    · unfold detect_category
      rw [if_neg ht]
      exact detect_category_aux_first_match CATEGORY_KEYWORDS (toLowerStr t) i ei hi hm hearlier
  · intro t i j ei ej hi hj hij hm
    by_cases ht : t = ""
    · subst ht
      have hall : ∀ e ∈ CATEGORY_KEYWORDS, entryMatches e (toLowerStr "") = false := by decide
      rw [hall ei (mem_of_index hi)] at hm
      exact absurd hm (by simp)
    · unfold detect_category
      rw [if_neg ht]
      exact detect_category_aux_of_earlier CATEGORY_KEYWORDS (toLowerStr t) i j ei ej hi hj hij hm
        (by decide)

/-- Claim C6, witness: a text matching both `family` (declared first, at table
position 0) and `dining` keywords is classified `family` — the first matching
category in declared order. -/
theorem detect_category_spec_witness : detect_category "亲子美食" = "family" :=
  detect_category_spec.2.2.2.1 "亲子美食" 0
    ("family", ["亲子", "家庭", "儿童", "家族", "亲情", "孩子"])
    (by decide) (by decide)
    (fun j hj ej _ => absurd hj (Nat.not_lt_zero j))

/-- Claim C7: reconciling the identical batch a second time immediately after
a first reconciliation classifies every candidate with a non-empty name as
`updated` (never `new`), and leaves every such persisted record active. -/
theorem reconcile_idempotent (batch : List Candidate) (s₀ : List CampaignRecord) (t₁ t₂ : Nat) :
    (∀ p ∈ (reconcile batch (reconcile batch s₀ t₁).2 t₂).1,
        p.1.campaign_name ≠ "" → p.2 = "updated")
    ∧ (∀ c ∈ batch, c.campaign_name ≠ "" →
        ∃ r, findByIdentity c.campaign_name c.competitor_name
              (reconcile batch (reconcile batch s₀ t₁).2 t₂).2 = some r ∧
          r.is_active = true) := by
  constructor
  · intro p hp hname
    have hinv : ∀ c ∈ batch, c.campaign_name ≠ "" →
        ∃ r, findByIdentity c.campaign_name c.competitor_name
              (reconcile batch s₀ t₁).2 = some r ∧ r.is_active = true :=
      fun c hc hn => reconcile_establishes batch s₀ t₁ c hc hn
    have hp' : p ∈ (processBatch batch (reconcile batch s₀ t₁).2 t₂).1 := hp
    exact processBatch_all_updated batch _ t₂ hinv p hp' hname
  · intro c hc hn
    exact reconcile_establishes batch _ t₂ c hc hn

/-- Claim C7, witness: the theorem applied to a concrete one-candidate batch
against an initially empty store. -/
theorem reconcile_idempotent_witness :
    ∃ r, findByIdentity "样例B" "Marriott"
          (reconcile [⟨"样例B", "", "", "general", 0, "Marriott"⟩]
            (reconcile [⟨"样例B", "", "", "general", 0, "Marriott"⟩] [] 0).2 86400).2 = some r ∧
      r.is_active = true :=
  (reconcile_idempotent [⟨"样例B", "", "", "general", 0, "Marriott"⟩] [] 0 86400).2
    ⟨"样例B", "", "", "general", 0, "Marriott"⟩ (List.mem_singleton.mpr rfl) (by decide)

/-- Claim C8, counterexample to the claim as stated: with a two-candidate
batch whose first write the store rejects, the run surfaces the failure
(`ok = false`, one `failed` audit row), but the second candidate is never
processed — its identity is absent from the final store. -/
theorem save_failure_aborts_batch_cex :
    (trigger_scrape false
        [⟨"甲活动", "", "", "general", 0, "Marriott"⟩, ⟨"乙活动", "", "", "general", 0, "Marriott"⟩]
        (fun c => c.campaign_name == "甲活动") false [] 0).ok = false
    ∧ findByIdentity "乙活动" "Marriott"
        (trigger_scrape false
          [⟨"甲活动", "", "", "general", 0, "Marriott"⟩, ⟨"乙活动", "", "", "general", 0, "Marriott"⟩]
          (fun c => c.campaign_name == "甲活动") false [] 0).store = none
    ∧ (trigger_scrape false
        [⟨"甲活动", "", "", "general", 0, "Marriott"⟩, ⟨"乙活动", "", "", "general", 0, "Marriott"⟩]
        (fun c => c.campaign_name == "甲活动") false [] 0).logs
      = [⟨"failed", 0, 0, "db write rejected"⟩] :=
  ⟨by decide, by decide, by decide⟩

/-- Claim C8 (amended): a persistence-layer failure while saving one candidate
aborts the batch — the candidates before the failure are processed and
persisted normally, the exception is surfaced to the run outcome, and the
remaining candidates are not processed at all. -/
theorem processBatchF_abort (rejects : Candidate → Bool) (pre post : List Candidate)
    (c : Candidate) (s : List CampaignRecord) (now : Nat)
    (hpre : ∀ c' ∈ pre, rejects c' = false)
    (hname : c.campaign_name ≠ "") (hrej : rejects c = true) :
    processBatchF rejects (pre ++ c :: post) s now
      = ((processBatch pre s now).1, (processBatch pre s now).2, some "db write rejected") := by
  induction pre generalizing s with
  | nil =>
    show processBatchF rejects (c :: post) s now = _
    unfold processBatchF save_campaignF
    rw [if_neg hname, if_pos hrej]
    rfl
  | cons c' pre' ih =>
    show processBatchF rejects (c' :: (pre' ++ c :: post)) s now = _
    have hc' : rejects c' = false := hpre c' (List.mem_cons_self _ _)
    have hsv : save_campaignF rejects c' s now = Except.ok (save_campaign c' s now) := by
      unfold save_campaignF save_campaign
      by_cases hn' : c'.campaign_name = ""
      · rw [if_pos hn', if_pos hn']
      · rw [if_neg hn', if_neg hn', if_neg (by rw [hc']; exact Bool.false_ne_true)]
    unfold processBatchF processBatch
    rw [hsv]
    simp only
    rw [ih _ (fun x hx => hpre x (List.mem_cons_of_mem c' hx))]

/-- Claim C8, witness: the amended theorem at a concrete three-candidate batch
whose middle write is rejected. -/
theorem processBatchF_abort_witness :
    processBatchF (fun c => c.campaign_name == "丙活动")
        ([⟨"乙活动", "", "", "general", 0, "Marriott"⟩] ++
          ⟨"丙活动", "", "", "general", 0, "Marriott"⟩ ::
            [⟨"丁活动", "", "", "general", 0, "Marriott"⟩])
        [] 0
      = ((processBatch [⟨"乙活动", "", "", "general", 0, "Marriott"⟩] [] 0).1,
         (processBatch [⟨"乙活动", "", "", "general", 0, "Marriott"⟩] [] 0).2,
         some "db write rejected") :=
  processBatchF_abort (fun c => c.campaign_name == "丙活动")
    [⟨"乙活动", "", "", "general", 0, "Marriott"⟩]
    [⟨"丁活动", "", "", "general", 0, "Marriott"⟩]
    ⟨"丙活动", "", "", "general", 0, "Marriott"⟩ [] 0
    (by decide) (by decide) (by decide)

/-- Claim C9, counterexample to the claim as stated: a run whose candidate
write fails and whose audit-log write is also refused completes with zero
audit entries — the `except` branch around the failure log swallows the
second failure — contradicting "exactly one audit entry per invocation". -/
theorem trigger_scrape_zero_logs_cex :
    (trigger_scrape false [⟨"甲活动", "", "", "general", 0, "Marriott"⟩]
        (fun c => c.campaign_name == "甲活动") true [] 0).logs = []
    ∧ (trigger_scrape false [⟨"甲活动", "", "", "general", 0, "Marriott"⟩]
        (fun c => c.campaign_name == "甲活动") true [] 0).logs.length ≠ 1 :=
  ⟨by decide, by decide⟩

/-- Claim C9 (amended): a run appends at most one audit entry; when the audit
store accepts the write, exactly one entry is appended — `success` with the
found/new counts on a fully successful run, `failed` carrying the error
message otherwise; when the audit write itself is refused, the refusal is
swallowed and the run completes with zero entries. -/
theorem trigger_scrape_audit (use_demo : Bool) (scraped : List Candidate)
    (rejects : Candidate → Bool) (logFail : Bool) (s : List CampaignRecord) (now : Nat) :
    (trigger_scrape use_demo scraped rejects logFail s now).logs.length ≤ 1
    ∧ (logFail = true → (trigger_scrape use_demo scraped rejects logFail s now).logs = [])
    ∧ (logFail = false →
        ∃ e, (trigger_scrape use_demo scraped rejects logFail s now).logs = [e]
          ∧ ((e.status = "success"
                ∧ (trigger_scrape use_demo scraped rejects logFail s now).ok = true
                ∧ e.campaigns_found = (trigger_scrape use_demo scraped rejects logFail s now).found
                ∧ e.new_campaigns = (trigger_scrape use_demo scraped rejects logFail s now).newCount
                ∧ e.error_message = "")
             ∨ (e.status = "failed"
                ∧ (trigger_scrape use_demo scraped rejects logFail s now).ok = false
                ∧ (processBatchF rejects (pipelineBatch use_demo scraped now) s now).2.2
                    = some e.error_message))) := by
  simp only [trigger_scrape]
  cases herr : (processBatchF rejects (pipelineBatch use_demo scraped now) s now).2.2 with
  | some e =>
    cases logFail with
    | true => exact ⟨Nat.zero_le 1, fun _ => rfl, fun h => Bool.noConfusion h⟩
    | false =>
      exact ⟨Nat.le_refl 1, fun h => Bool.noConfusion h,
        fun _ => ⟨_, rfl, Or.inr ⟨rfl, rfl, rfl⟩⟩⟩
  | none =>
    cases logFail with
    | true => exact ⟨Nat.zero_le 1, fun _ => rfl, fun h => Bool.noConfusion h⟩
    | false =>
      exact ⟨Nat.le_refl 1, fun h => Bool.noConfusion h,
        fun _ => ⟨_, rfl, Or.inl ⟨rfl, rfl, rfl, rfl, rfl⟩⟩⟩

/-- Claim C9, witness: the amended theorem at a concrete run with a refused
audit write. -/
theorem trigger_scrape_audit_witness :
    (trigger_scrape false [] (fun _ => false) true [] 0).logs = [] :=
  (trigger_scrape_audit false [] (fun _ => false) true [] 0).2.1 rfl

theorem demo_names_nonempty (now : Nat) :
    ∀ d ∈ get_demo_campaigns now, d.campaign_name ≠ "" := by
  intro d hd
  simp only [get_demo_campaigns, List.mem_cons, List.not_mem_nil, or_false] at hd
  rcases hd with rfl | rfl | rfl | rfl | rfl | rfl | rfl | rfl <;> simp

/-- Claim C10: the pipeline never reconciles an empty batch — when the live
scrape returns zero candidates it substitutes the eight-record demo dataset,
whose records are all persisted (and left active), and the staleness sweep
runs against the demo batch names. -/
theorem demo_fallback_spec :
    (∀ (use_demo : Bool) (scraped : List Candidate) (now : Nat),
        pipelineBatch use_demo scraped now ≠ [])
    ∧ (∀ now : Nat, pipelineBatch false [] now = get_demo_campaigns now
        ∧ (get_demo_campaigns now).length = 8)
    ∧ (∀ (s : List CampaignRecord) (now : Nat),
        (trigger_scrape false [] (fun _ => false) false s now).store
          = mark_inactive_campaigns (batchNames (get_demo_campaigns now))
              (processBatch (get_demo_campaigns now) s now).2 now)
    ∧ (∀ (s : List CampaignRecord) (now : Nat) (d : Candidate),
        d ∈ get_demo_campaigns now →
        ∃ r, findByIdentity d.campaign_name d.competitor_name
              (trigger_scrape false [] (fun _ => false) false s now).store = some r ∧
          r.is_active = true) := by
  refine ⟨?_, ?_, ?_, ?_⟩
  · intro u sc now
    unfold pipelineBatch
    cases u with
    | true => simp [get_demo_campaigns]
    | false =>
      cases hsc : sc.isEmpty with
      | true => simp [get_demo_campaigns]
      | false =>
        intro h
        simp only [Bool.false_eq_true, if_false] at h
        rw [h] at hsc
        simp at hsc
  · intro now
    exact ⟨rfl, rfl⟩
  · intro s now
    have h1 := processBatchF_noReject (pipelineBatch false [] now) s now
    show (trigger_scrape false [] (fun _ => false) false s now).store = _
    simp only [trigger_scrape, h1]
    rfl
  · intro s now d hd
    have hst : (trigger_scrape false [] (fun _ => false) false s now).store
        = (reconcile (get_demo_campaigns now) s now).2 := by
      have h1 := processBatchF_noReject (pipelineBatch false [] now) s now
      simp only [trigger_scrape, h1, reconcile]
      rfl
    rw [hst]
    exact reconcile_establishes (get_demo_campaigns now) s now d hd
      (demo_names_nonempty now d hd)

/-- Claim C10, witness: one concrete demo record is persisted and active after
a run whose live scrape returned nothing. -/
theorem demo_fallback_spec_witness :
    ∃ r, findByIdentity "水疗养生套餐" "Marriott"
          (trigger_scrape false [] (fun _ => false) false [] 0).store = some r ∧
      r.is_active = true :=
  demo_fallback_spec.2.2.2 [] 0
    ⟨"水疗养生套餐", "尊享90分钟身心放松体验，包含特色按摩及水疗护理。预订住宿套餐可享专属折扣。",
      "https://www.marriott.com.cn/specials/spa-wellness.mi", "spa", 0, "Marriott"⟩
    (by decide)

end CampaignTracker
